import Mathlib

/-!
# Verification of the magog timed message buffer and intro screen

This development embeds the `Message_Buffer` component declared in
`src/ui/message_buffer.hpp` and the `Intro_Screen` input/draw logic of
`src/unnamed/part_000` (`intro_screen.cpp`).

The repository ships only the header for the message buffer: the member
function bodies (`update`, `draw`, `add_msg`, `add_caption`, `time_read`
and the constructor) are not among the source files.  Following the
header's declarations and comments, the operations are therefore modelled
from the specification (each such definition's doc comment says so).
Times are `ℚ` (the C++ uses `float`; the timing arithmetic is exact for
the values involved).
-/

namespace Magog

/-- `struct Message_String` from `message_buffer.hpp`: a text together with
the clock time at which it counts as read (its scheduled clear time). -/
structure Message_String where
  text : String
  time_read : ℚ
deriving DecidableEq, Repr

/-- The state of `class Message_Buffer` from `message_buffer.hpp`:
current clock, read-completion horizon, the per-letter reading duration,
the minimum reading duration (the floor on any entry's duration), the
message log and the caption queue.  The `Fonter_System&` reference and the
two colors play no role in the timing logic and are omitted; the caption
`std::queue` is a `List` whose head is the queue front. -/
structure Message_Buffer where
  clock : ℚ
  read_new_text_time : ℚ
  letter_read_duration : ℚ
  min_read_duration : ℚ
  messages : List Message_String
  captions : List Message_String
deriving DecidableEq, Repr

namespace Message_Buffer

/-- Modelled from the spec: the constructor body is not in the sources.
A fresh buffer starts at clock `0` with an empty log and caption queue and
the configured reading-speed constants; `read_new_text_time` starts equal
to the clock ("Either equal to clock or larger than it"). -/
def init (lrd floor : ℚ) : Message_Buffer :=
  { clock := 0
    read_new_text_time := 0
    letter_read_duration := lrd
    min_read_duration := floor
    messages := []
    captions := [] }

/-- Modelled from the spec: the body of `Message_Buffer::time_read` is not
in the sources.  The reading duration of a text is its length times
`letter_read_duration`, with a minimum floor ("derived from text length
times a configured `letter_read_duration` (seconds per character), with a
minimum floor"). -/
def duration_of (b : Message_Buffer) (added_text : String) : ℚ :=
  max b.min_read_duration ((added_text.length : ℚ) * b.letter_read_duration)

/-- Modelled from the spec: the body of `Message_Buffer::time_read` is not
in the sources.  Per the header comment it updates the total time when
texts will be read and returns the time the user should have read the
added text: `start = max(clock, read_new_text_time)`, the returned time is
`start + duration`, and `read_new_text_time` is set to it. -/
def time_read (b : Message_Buffer) (added_text : String) :
    Message_Buffer × ℚ :=
  let t := max b.clock b.read_new_text_time + b.duration_of added_text
  ({ b with read_new_text_time := t }, t)

/-- Modelled from the spec: the body of `Message_Buffer::add_msg` is not
in the sources.  Appends a new entry to the tail of the message log, its
clear time given by `time_read`. -/
def add_msg (b : Message_Buffer) (str : String) : Message_Buffer :=
  let p := b.time_read str
  { p.1 with messages := p.1.messages ++ [⟨str, p.2⟩] }

/-- Modelled from the spec: the body of `Message_Buffer::add_caption` is
not in the sources.  Same time budgeting as `add_msg`, but the entry is
pushed to the tail of the caption queue. -/
def add_caption (b : Message_Buffer) (str : String) : Message_Buffer :=
  let p := b.time_read str
  { p.1 with captions := p.1.captions ++ [⟨str, p.2⟩] }

/-- Modelled from the spec: eviction from the head of the message log, as
performed by `Message_Buffer::update` — entries are removed from the head
while the head's `time_read` has passed. -/
def evict_messages (clock : ℚ) : List Message_String → List Message_String
  | [] => []
  | m :: rest =>
      if m.time_read ≤ clock then evict_messages clock rest else m :: rest

/-- Modelled from the spec: caption eviction in `Message_Buffer::update` —
only the single front caption is popped, and only if its `time_read` has
passed. -/
def evict_caption (clock : ℚ) : List Message_String → List Message_String
  | [] => []
  | c :: rest => if c.time_read ≤ clock then rest else c :: rest

/-- Modelled from the spec: the body of `Message_Buffer::update` is not in
the sources.  Advances the clock by the interval, then evicts expired
entries from the head of the message log and at most the front caption.
`read_new_text_time` is kept at least the clock, per the header comment
("Either equal to clock or larger than it") and the spec invariant
`read_new_text_time >= clock`. -/
def update (b : Message_Buffer) (interval_seconds : ℚ) : Message_Buffer :=
  let clock := b.clock + interval_seconds
  { b with
    clock := clock
    read_new_text_time := max b.read_new_text_time clock
    messages := evict_messages clock b.messages
    captions := evict_caption clock b.captions }

/-- A draw call issued to the external text renderer: a line slot and the
text drawn there.  Slot `Sum.inl i` is the `i`-th line of the message log
area; `Sum.inr ()` is the fixed caption position. -/
abbrev Draw_Call := (Nat ⊕ Unit) × String

/-- Modelled from the spec: the body of `Message_Buffer::draw` is not in
the sources.  Read-only: one draw call per live message-log entry at its
line slot, and one for the front caption (only) at the caption position.
Returns the (unchanged) buffer together with the issued draw calls. -/
def draw (b : Message_Buffer) : Message_Buffer × List Draw_Call :=
  (b,
    (b.messages.enum.map fun p => (Sum.inl p.1, p.2.text)) ++
      match b.captions with
      | [] => []
      | c :: _ => [(Sum.inr (), c.text)])

/-- A single externally visible transition of the buffer: adding a
message, adding a caption, a (non-negative) clock tick, or a draw. -/
inductive Step : Message_Buffer → Message_Buffer → Prop where
  | msg (b : Message_Buffer) (s : String) : Step b (b.add_msg s)
  | caption (b : Message_Buffer) (s : String) : Step b (b.add_caption s)
  | tick (b : Message_Buffer) (dt : ℚ) (h : 0 ≤ dt) : Step b (b.update dt)
  | frame (b : Message_Buffer) : Step b (b.draw).1

/-- States reachable from `init lrd floor` by `add_msg`, `add_caption`,
non-negative `update` ticks and `draw`. -/
inductive Reachable (lrd floor : ℚ) : Message_Buffer → Prop where
  | init : Reachable lrd floor (init lrd floor)
  | msg {b : Message_Buffer} (s : String) :
      Reachable lrd floor b → Reachable lrd floor (b.add_msg s)
  | caption {b : Message_Buffer} (s : String) :
      Reachable lrd floor b → Reachable lrd floor (b.add_caption s)
  | tick {b : Message_Buffer} (dt : ℚ) (h : 0 ≤ dt) :
      Reachable lrd floor b → Reachable lrd floor (b.update dt)
  | frame {b : Message_Buffer} :
      Reachable lrd floor b → Reachable lrd floor (b.draw).1

/-- Applying a sequence of `update` calls in order. -/
def apply_updates (b : Message_Buffer) : List ℚ → Message_Buffer
  | [] => b
  | d :: ds => apply_updates (b.update d) ds

/-- Sample state: two log messages `"a"`, `"b"` added at clock `0` with
`letter_read_duration = 1/20` and floor `1` (the spec's second scenario). -/
def sample_ab : Message_Buffer := ((init (1/20) 1).add_msg "a").add_msg "b"

/-- Sample state: the log message `"hi"` added at clock `0` with
`letter_read_duration = 1/20` and floor `1` (the spec's first scenario). -/
def sample_hi : Message_Buffer := (init (1/20) 1).add_msg "hi"

/-- Sample state: two captions `"X"`, `"Y"` added at clock `0` with
`letter_read_duration = 1/20` and floor `1` (the spec's third scenario). -/
def sample_xy : Message_Buffer :=
  ((init (1/20) 1).add_caption "X").add_caption "Y"

/-- The state invariant of the buffer: the configuration constants are as
set at construction, the read-completion horizon is at least the clock and
bounds every entry's clear time, and the message log is sorted by clear
time. -/
def Inv (lrd floor : ℚ) (b : Message_Buffer) : Prop :=
  b.letter_read_duration = lrd ∧
  b.min_read_duration = floor ∧
  b.clock ≤ b.read_new_text_time ∧
  (∀ m ∈ b.messages, m.time_read ≤ b.read_new_text_time) ∧
  (∀ c ∈ b.captions, c.time_read ≤ b.read_new_text_time) ∧
  b.messages.Pairwise fun x y => x.time_read ≤ y.time_read

end Message_Buffer

/-- The game states that `intro_screen.cpp` pushes or pops: the intro
screen itself and `Game_Screen` (other screens of the game are irrelevant
to this fragment). -/
inductive Screen where
  | intro_screen
  | game_screen
deriving DecidableEq, Repr

/-- The part of the singleton `Game_Loop` that `intro_screen.cpp`
touches: its stack of game states (head = current state) and whether it is
still running (`quit()` clears this). -/
structure Game_Loop where
  states : List Screen
  running : Bool
deriving DecidableEq, Repr

namespace Game_Loop

/-- `Game_Loop::pop_state`: removes the current (top) state. -/
def pop_state (g : Game_Loop) : Game_Loop :=
  { g with states := g.states.tail }

/-- `Game_Loop::push_state`: pushes a new state on top. -/
def push_state (g : Game_Loop) (s : Screen) : Game_Loop :=
  { g with states := s :: g.states }

/-- `Game_Loop::quit`: stops the loop. -/
def quit (g : Game_Loop) : Game_Loop :=
  { g with running := false }

end Game_Loop

namespace Intro_Screen

/-- `Intro_Screen::key_event` from `intro_screen.cpp` (its effect on the
game loop).  `27` is Escape; `'n' = 110`, `'1' = 49`, `'2' = 50`.  The
`'1'`/`'2'` cases call `add_wave`, which touches only the audio mixer and
leaves the game loop unchanged. -/
def key_event (keysym : Int) (g : Game_Loop) : Game_Loop :=
  match keysym with
  | 27 => g.pop_state
  | 110 => (g.pop_state).push_state Screen.game_screen
  | 49 => g
  | 50 => g
  | _ => g

/-- `Intro_Screen::draw` from `intro_screen.cpp` (its effect on the game
loop).  The GL and text calls are pure rendering; the two immediate-mode
buttons are the only game-loop effects, so the click outcome of each
`im_button` call is a parameter.  A "New Game" click pops the current
state and pushes a fresh `Game_Screen`; an "Exit" click quits. -/
def draw (new_game_clicked exit_clicked : Bool) (g : Game_Loop) :
    Game_Loop :=
  let g1 :=
    if new_game_clicked then (g.pop_state).push_state Screen.game_screen
    else g
  if exit_clicked then g1.quit else g1

end Intro_Screen

/-! ## Basic unfolding lemmas -/

namespace Message_Buffer

theorem add_msg_def (b : Message_Buffer) (s : String) :
    b.add_msg s =
      { b with
        read_new_text_time :=
          max b.clock b.read_new_text_time + b.duration_of s
        messages := b.messages ++
          [⟨s, max b.clock b.read_new_text_time + b.duration_of s⟩] } := rfl

theorem add_caption_def (b : Message_Buffer) (s : String) :
    b.add_caption s =
      { b with
        read_new_text_time :=
          max b.clock b.read_new_text_time + b.duration_of s
        captions := b.captions ++
          [⟨s, max b.clock b.read_new_text_time + b.duration_of s⟩] } := rfl

theorem update_def (b : Message_Buffer) (dt : ℚ) :
    b.update dt =
      { b with
        clock := b.clock + dt
        read_new_text_time := max b.read_new_text_time (b.clock + dt)
        messages := evict_messages (b.clock + dt) b.messages
        captions := evict_caption (b.clock + dt) b.captions } := rfl

theorem duration_of_nonneg (b : Message_Buffer) (s : String)
    (h : 0 ≤ b.min_read_duration) : 0 ≤ b.duration_of s :=
  le_trans h (le_max_left _ _)

theorem evict_messages_sublist (c : ℚ) (l : List Message_String) :
    List.Sublist (evict_messages c l) l := by
  induction l with
  | nil => exact List.Sublist.refl _
  | cons m rest ih =>
    rw [evict_messages]
    by_cases h : m.time_read ≤ c
    · simp only [if_pos h]
      exact ih.trans (List.sublist_cons_self m rest)
    · simp only [if_neg h]
      exact List.Sublist.refl _

theorem evict_caption_sublist (c : ℚ) (l : List Message_String) :
    List.Sublist (evict_caption c l) l := by
  cases l with
  | nil => exact List.Sublist.refl _
  | cons m rest =>
    rw [evict_caption]
    by_cases h : m.time_read ≤ c
    · simp only [if_pos h]
      exact List.sublist_cons_self m rest
    · simp only [if_neg h]
      exact List.Sublist.refl _

/-! ## The buffer invariant is established and preserved -/

theorem inv_init (lrd floor : ℚ) : Inv lrd floor (init lrd floor) := by
  simp [Inv, init]

theorem inv_add_msg {lrd floor : ℚ} {b : Message_Buffer} (s : String)
    (hfl : 0 ≤ floor) (h : Inv lrd floor b) : Inv lrd floor (b.add_msg s) := by
  obtain ⟨hc1, hc2, hcr, hmsg, hcap, hsort⟩ := h
  have hf : 0 ≤ b.min_read_duration := by rw [hc2]; exact hfl
  have hd : 0 ≤ b.duration_of s := duration_of_nonneg b s hf
  have hstep : b.read_new_text_time ≤
      max b.clock b.read_new_text_time + b.duration_of s :=
    le_trans (le_max_right _ _) (le_add_of_nonneg_right hd)
  rw [add_msg_def]
  refine ⟨hc1, hc2, ?_, ?_, ?_, ?_⟩
  · exact le_trans (le_max_left _ _) (le_add_of_nonneg_right hd)
  · intro m hm
    rcases List.mem_append.mp hm with hm | hm
    · exact le_trans (hmsg m hm) hstep
    · rw [List.mem_singleton.mp hm]
  · intro c hc
    exact le_trans (hcap c hc) hstep
  · rw [List.pairwise_append]
    refine ⟨hsort, List.pairwise_singleton _ _, ?_⟩
    intro x hx y hy
    rw [List.mem_singleton.mp hy]
    exact le_trans (hmsg x hx) hstep

theorem inv_add_caption {lrd floor : ℚ} {b : Message_Buffer} (s : String)
    (hfl : 0 ≤ floor) (h : Inv lrd floor b) :
    Inv lrd floor (b.add_caption s) := by
  obtain ⟨hc1, hc2, hcr, hmsg, hcap, hsort⟩ := h
  have hf : 0 ≤ b.min_read_duration := by rw [hc2]; exact hfl
  have hd : 0 ≤ b.duration_of s := duration_of_nonneg b s hf
  have hstep : b.read_new_text_time ≤
      max b.clock b.read_new_text_time + b.duration_of s :=
    le_trans (le_max_right _ _) (le_add_of_nonneg_right hd)
  rw [add_caption_def]
  refine ⟨hc1, hc2, ?_, ?_, ?_, hsort⟩
  · exact le_trans (le_max_left _ _) (le_add_of_nonneg_right hd)
  · intro m hm
    exact le_trans (hmsg m hm) hstep
  · intro c hc
    rcases List.mem_append.mp hc with hc | hc
    · exact le_trans (hcap c hc) hstep
    · rw [List.mem_singleton.mp hc]

theorem inv_update {lrd floor : ℚ} {b : Message_Buffer} (dt : ℚ)
    (h : Inv lrd floor b) : Inv lrd floor (b.update dt) := by
  obtain ⟨hc1, hc2, hcr, hmsg, hcap, hsort⟩ := h
  rw [update_def]
  refine ⟨hc1, hc2, le_max_right _ _, ?_, ?_, ?_⟩
  · intro m hm
    exact le_trans (hmsg m ((evict_messages_sublist _ _).subset hm))
      (le_max_left _ _)
  · intro c hc
    exact le_trans (hcap c ((evict_caption_sublist _ _).subset hc))
      (le_max_left _ _)
  · exact hsort.sublist (evict_messages_sublist _ _)

theorem reachable_inv {lrd floor : ℚ} {b : Message_Buffer} (hfl : 0 ≤ floor)
    (h : Reachable lrd floor b) : Inv lrd floor b := by
  induction h with
  | init => exact inv_init lrd floor
  | msg s _ ih => exact inv_add_msg s hfl ih
  | caption s _ ih => exact inv_add_caption s hfl ih
  | tick dt hdt _ ih => exact inv_update dt ih
  | frame _ ih => exact ih

/-! ## Claim theorems -/

/-- C1: `add_msg(text)` and `add_caption(text)` give the new entry the
clear time `max(clock, read_new_text_time) + duration` with
`duration = time_read`'s estimate for `text`, set `read_new_text_time` to
that same value, and append the entry to the tail of the message log
(resp. push it to the tail of the caption queue), touching nothing else. -/
theorem add_msg_add_caption_schedule (b : Message_Buffer) (s : String) :
    ((b.add_msg s).messages = b.messages ++
        [⟨s, max b.clock b.read_new_text_time + b.duration_of s⟩] ∧
      (b.add_msg s).read_new_text_time =
        max b.clock b.read_new_text_time + b.duration_of s ∧
      (b.add_msg s).captions = b.captions ∧
      (b.add_msg s).clock = b.clock) ∧
    ((b.add_caption s).captions = b.captions ++
        [⟨s, max b.clock b.read_new_text_time + b.duration_of s⟩] ∧
      (b.add_caption s).read_new_text_time =
        max b.clock b.read_new_text_time + b.duration_of s ∧
      (b.add_caption s).messages = b.messages ∧
      (b.add_caption s).clock = b.clock) :=
  ⟨⟨rfl, rfl, rfl, rfl⟩, rfl, rfl, rfl, rfl⟩

/-- C3: in every state reachable from the initial state by `add_msg`,
`add_caption`, non-negative `update` and `draw` calls,
`read_new_text_time ≥ clock` holds. -/
theorem reachable_clock_le_horizon {lrd floor : ℚ} {b : Message_Buffer}
    (hfl : 0 ≤ floor) (h : Reachable lrd floor b) :
    b.clock ≤ b.read_new_text_time :=
  (reachable_inv hfl h).2.2.1

/-- Witness for C3 at the state reached by `add_msg "hi"` then
`update 2` from `init (1/20) 1`. -/
theorem reachable_clock_le_horizon_witness :
    (0:ℚ) ≤ 1 ∧
      (((init (1/20) 1).add_msg "hi").update 2).clock ≤
        (((init (1/20) 1).add_msg "hi").update 2).read_new_text_time :=
  ⟨by norm_num,
    reachable_clock_le_horizon (by norm_num)
      (Reachable.tick 2 (by norm_num) (Reachable.msg "hi" Reachable.init))⟩

/-- C4: a single `add_msg` or `add_caption` call never decreases
`read_new_text_time` (so along any sequence of such calls the horizon is
non-decreasing), given the configured floor is non-negative. -/
theorem horizon_monotone (b : Message_Buffer) (s : String)
    (hf : 0 ≤ b.min_read_duration) :
    b.read_new_text_time ≤ (b.add_msg s).read_new_text_time ∧
    b.read_new_text_time ≤ (b.add_caption s).read_new_text_time := by
  have hd : 0 ≤ b.duration_of s := duration_of_nonneg b s hf
  have h : b.read_new_text_time ≤
      max b.clock b.read_new_text_time + b.duration_of s :=
    le_trans (le_max_right _ _) (le_add_of_nonneg_right hd)
  exact ⟨h, h⟩

/-- Witness for C4 at `init (1/20) 1` and the text `"hi"`. -/
theorem horizon_monotone_witness :
    (0:ℚ) ≤ (init (1/20) 1).min_read_duration ∧
      (init (1/20) 1).read_new_text_time ≤
        ((init (1/20) 1).add_msg "hi").read_new_text_time :=
  ⟨by norm_num [init], (horizon_monotone (init (1/20) 1) "hi"
      (by norm_num [init])).1⟩

/-- C6: one `update` call with a non-negative interval pops at most the
front caption, and pops it exactly when its clear time has passed; the
captions behind the front are kept even if expired. -/
theorem update_pops_at_most_front_caption (b : Message_Buffer) (dt : ℚ)
    (hdt : 0 ≤ dt) :
    (b.captions = [] ∧ (b.update dt).captions = []) ∨
    ∃ c cs, b.captions = c :: cs ∧
      ((c.time_read ≤ (b.update dt).clock ∧ (b.update dt).captions = cs) ∨
        ((b.update dt).clock < c.time_read ∧
          (b.update dt).captions = c :: cs)) := by
  rw [update_def]
  cases hcap : b.captions with
  | nil =>
    left
    exact ⟨rfl, by simp [hcap, evict_caption]⟩
  | cons c cs =>
    right
    refine ⟨c, cs, rfl, ?_⟩
    by_cases h : c.time_read ≤ b.clock + dt
    · left
      exact ⟨h, by simp [hcap, evict_caption, if_pos h]⟩
    · right
      exact ⟨lt_of_not_le h, by simp [hcap, evict_caption, if_neg h]⟩

/-- Witness for C6: two queued captions, one non-negative tick. -/
theorem update_pops_at_most_front_caption_witness :
    (0:ℚ) ≤ 4 ∧
      ((((init (1/20) 1).add_caption "X").add_caption "Y").captions = [] ∧
          (((((init (1/20) 1).add_caption "X").add_caption "Y").update
            4).captions = []) ∨
        ∃ c cs,
          (((init (1/20) 1).add_caption "X").add_caption "Y").captions =
            c :: cs ∧
          ((c.time_read ≤
              ((((init (1/20) 1).add_caption "X").add_caption "Y").update
                4).clock ∧
            ((((init (1/20) 1).add_caption "X").add_caption "Y").update
              4).captions = cs) ∨
            (((((init (1/20) 1).add_caption "X").add_caption "Y").update
                4).clock < c.time_read ∧
              ((((init (1/20) 1).add_caption "X").add_caption "Y").update
                4).captions = c :: cs))) :=
  ⟨by norm_num,
    update_pops_at_most_front_caption
      (((init (1/20) 1).add_caption "X").add_caption "Y") 4 (by norm_num)⟩

/-- C8: `draw` mutates no buffer state — clock, horizon, message log and
caption queue are unchanged — and two consecutive `draw` calls with no
intervening `update` issue two identical draw-call sequences. -/
theorem draw_is_pure (b : Message_Buffer) :
    (b.draw).1 = b ∧
    (b.draw).1.clock = b.clock ∧
    (b.draw).1.read_new_text_time = b.read_new_text_time ∧
    (b.draw).1.messages = b.messages ∧
    (b.draw).1.captions = b.captions ∧
    (((b.draw).1).draw).2 = (b.draw).2 :=
  ⟨rfl, rfl, rfl, rfl, rfl, rfl⟩

/-- C10: on the intro screen, the `'n'` key (keysym 110) and a "New Game"
button click perform the same game-loop transition — pop the current
state, then push a fresh `Game_Screen` — and Escape (keysym 27) pops the
current state without pushing a replacement. -/
theorem intro_new_game_key_matches_button (g : Game_Loop) :
    Intro_Screen.key_event 110 g = Intro_Screen.draw true false g ∧
    Intro_Screen.key_event 110 g =
      (g.pop_state).push_state Screen.game_screen ∧
    Intro_Screen.key_event 27 g = g.pop_state :=
  ⟨rfl, rfl, rfl⟩

/-! ## Sorted eviction is exact eviction -/

theorem evict_messages_eq_filter (c : ℚ) (l : List Message_String)
    (h : l.Pairwise fun x y => x.time_read ≤ y.time_read) :
    evict_messages c l = l.filter fun m => c < m.time_read := by
  induction l with
  | nil => rfl
  | cons m rest ih =>
    rcases List.pairwise_cons.mp h with ⟨hm, hrest⟩
    rw [evict_messages]
    by_cases hexp : m.time_read ≤ c
    · rw [if_pos hexp, ih hrest]
      simp [List.filter_cons, not_lt.mpr hexp]
    · have hlt : c < m.time_read := lt_of_not_le hexp
      rw [if_neg hexp]
      refine (List.filter_eq_self.mpr ?_).symm
      intro a ha
      rcases List.mem_cons.mp ha with rfl | ha
      · exact decide_eq_true hlt
      · exact decide_eq_true (lt_of_lt_of_le hlt (hm a ha))

/-! ## Concrete evaluations of the sample states -/

theorem sample_hi_eq :
    sample_hi = ⟨0, 1, 1/20, 1, [⟨"hi", 1⟩], []⟩ := by
  simp only [sample_hi, add_msg_def, init, duration_of,
    show ("hi".length : ℚ) = 2 from by norm_num [show "hi".length = 2 from rfl]]
  norm_num [max_def]

theorem sample_ab_eq :
    sample_ab = ⟨0, 2, 1/20, 1, [⟨"a", 1⟩, ⟨"b", 2⟩], []⟩ := by
  simp only [sample_ab, add_msg_def, init, duration_of,
    show ("a".length : ℚ) = 1 from by norm_num [show "a".length = 1 from rfl],
    show ("b".length : ℚ) = 1 from by norm_num [show "b".length = 1 from rfl]]
  norm_num [max_def]

theorem sample_xy_eq :
    sample_xy = ⟨0, 2, 1/20, 1, [], [⟨"X", 1⟩, ⟨"Y", 2⟩]⟩ := by
  simp only [sample_xy, add_caption_def, init, duration_of,
    show ("X".length : ℚ) = 1 from by norm_num [show "X".length = 1 from rfl],
    show ("Y".length : ℚ) = 1 from by norm_num [show "Y".length = 1 from rfl]]
  norm_num [max_def]

/-- C2: `update(interval)` with a non-negative interval sets the clock to
`clock + interval` and then removes from the message log exactly the
entries whose clear time has passed: what remains is the original log
filtered to the entries whose clear time is still in the future.  In
particular no unexpired entry is evicted, and every expired entry is
evicted in that single call, however large the interval. -/
theorem update_messages_exact {lrd floor : ℚ} (b : Message_Buffer)
    (dt : ℚ) (hr : Reachable lrd floor b) (hfl : 0 ≤ floor) (hdt : 0 ≤ dt) :
    (b.update dt).clock = b.clock + dt ∧
    (b.update dt).messages =
      b.messages.filter (fun m => b.clock + dt < m.time_read) ∧
    (∀ m ∈ b.messages, (b.update dt).clock < m.time_read →
      m ∈ (b.update dt).messages) ∧
    (∀ m ∈ b.messages, m.time_read ≤ (b.update dt).clock →
      m ∉ (b.update dt).messages) := by
  have hsort := (reachable_inv hfl hr).2.2.2.2.2
  have hfilter : (b.update dt).messages =
      b.messages.filter fun m => b.clock + dt < m.time_read :=
    evict_messages_eq_filter (b.clock + dt) b.messages hsort
  refine ⟨rfl, hfilter, ?_, ?_⟩
  · intro m hm hlt
    rw [hfilter]
    exact List.mem_filter.mpr ⟨hm, decide_eq_true hlt⟩
  · intro m _ hle contra
    rw [hfilter] at contra
    exact absurd (of_decide_eq_true (List.mem_filter.mp contra).2)
      (not_lt.mpr hle)

/-- Witness for C2: the spec's `"a"`/`"b"` scenario — after `update(1.5)`
the first entry is evicted and the second is still present. -/
theorem update_messages_exact_witness :
    (0:ℚ) ≤ 1 ∧ (0:ℚ) ≤ 3/2 ∧
      (sample_ab.update (3/2)).clock = 3/2 ∧
      (sample_ab.update (3/2)).messages = [⟨"b", 2⟩] := by
  have h := update_messages_exact sample_ab (3/2)
      (Reachable.msg "b" (Reachable.msg "a" Reachable.init))
      (by norm_num) (by norm_num)
  refine ⟨by norm_num, by norm_num, ?_, ?_⟩
  · rw [h.1, sample_ab_eq]
    norm_num
  · rw [h.2.1, sample_ab_eq]
    norm_num [List.filter_cons]

/-! ## Flushing the whole buffer by updates -/

theorem le_foldr_max_start (l : List Message_String) (c : ℚ) :
    c ≤ l.foldr (fun m acc => max m.time_read acc) c := by
  induction l with
  | nil => exact le_refl c
  | cons m rest ih => exact le_trans ih (le_max_right _ _)

theorem mem_le_foldr_max (l : List Message_String) (c : ℚ) :
    ∀ m ∈ l, m.time_read ≤ l.foldr (fun m acc => max m.time_read acc) c := by
  induction l with
  | nil =>
    intro m hm
    cases hm
  | cons x rest ih =>
    intro m hm
    rcases List.mem_cons.mp hm with rfl | hm
    · exact le_max_left _ _
    · exact le_trans (ih m hm) (le_max_right _ _)

theorem evict_messages_all_expired (c : ℚ) (l : List Message_String)
    (h : ∀ m ∈ l, m.time_read ≤ c) : evict_messages c l = [] := by
  induction l with
  | nil => rfl
  | cons m rest ih =>
    rw [evict_messages, if_pos (h m (List.mem_cons_self m rest))]
    exact ih fun x hx => h x (List.mem_cons_of_mem m hx)

theorem evict_caption_expired_front (c : ℚ) (l : List Message_String)
    (h : ∀ m ∈ l, m.time_read ≤ c) : evict_caption c l = l.tail := by
  cases l with
  | nil => rfl
  | cons x rest =>
    rw [evict_caption, if_pos (h x (List.mem_cons_self x rest))]
    rfl

theorem apply_updates_zeros (n : Nat) (b : Message_Buffer)
    (hmsg : b.messages = [])
    (hcap : ∀ c ∈ b.captions, c.time_read ≤ b.clock) :
    (apply_updates b (List.replicate n 0)).messages = [] ∧
    (apply_updates b (List.replicate n 0)).captions = b.captions.drop n ∧
    (apply_updates b (List.replicate n 0)).clock = b.clock := by
  induction n generalizing b with
  | zero => exact ⟨hmsg, by simp [apply_updates], rfl⟩
  | succ n ih =>
    rw [List.replicate_succ, apply_updates]
    have hclock : (b.update 0).clock = b.clock := by
      rw [update_def]
      simp
    have hmsg' : (b.update 0).messages = [] := by
      rw [update_def]
      simp only [hmsg]
      rfl
    have hcap' : (b.update 0).captions = b.captions.tail := by
      rw [update_def]
      simp only [add_zero]
      exact evict_caption_expired_front b.clock b.captions hcap
    obtain ⟨h1, h2, h3⟩ := ih (b.update 0) hmsg' (fun c hc => by
      rw [hclock]
      exact hcap c (List.mem_of_mem_tail (hcap' ▸ hc)))
    refine ⟨h1, ?_, h3.trans hclock⟩
    rw [h2, hcap', ← List.drop_one, List.drop_drop, Nat.add_comm]

theorem flush_all (b : Message_Buffer) :
    ∃ dts : List ℚ, (∀ d ∈ dts, 0 ≤ d) ∧
      (apply_updates b dts).messages = [] ∧
      (apply_updates b dts).captions = [] := by
  set T := (b.messages ++ b.captions).foldr
    (fun m acc => max m.time_read acc) b.clock with hT
  have hclockT : b.clock ≤ T := le_foldr_max_start _ _
  have hallT : ∀ m ∈ b.messages ++ b.captions, m.time_read ≤ T :=
    mem_le_foldr_max _ _
  have hclk : (b.update (T - b.clock)).clock = T := by
    show b.clock + (T - b.clock) = T
    ring
  have hm1 : (b.update (T - b.clock)).messages = [] := by
    show evict_messages (b.clock + (T - b.clock)) b.messages = []
    rw [show b.clock + (T - b.clock) = T by ring]
    exact evict_messages_all_expired T b.messages
      (fun m hm => hallT m (List.mem_append_left _ hm))
  have hc1 : (b.update (T - b.clock)).captions = b.captions.tail := by
    show evict_caption (b.clock + (T - b.clock)) b.captions = b.captions.tail
    rw [show b.clock + (T - b.clock) = T by ring]
    exact evict_caption_expired_front T b.captions
      (fun m hm => hallT m (List.mem_append_right _ hm))
  have hztail : ∀ c ∈ (b.update (T - b.clock)).captions,
      c.time_read ≤ (b.update (T - b.clock)).clock := by
    intro c hc
    rw [hclk]
    exact hallT c (List.mem_append_right _ (List.mem_of_mem_tail (hc1 ▸ hc)))
  obtain ⟨hz1, hz2, _⟩ :=
    apply_updates_zeros b.captions.length (b.update (T - b.clock)) hm1 hztail
  refine ⟨(T - b.clock) :: List.replicate b.captions.length 0, ?_, ?_, ?_⟩
  · intro d hd
    rcases List.mem_cons.mp hd with rfl | hd
    · linarith
    · exact (List.eq_of_mem_replicate hd).ge
  · exact hz1
  · rw [show apply_updates b ((T - b.clock) ::
          List.replicate b.captions.length 0) =
        apply_updates (b.update (T - b.clock))
          (List.replicate b.captions.length 0) from rfl,
      hz2, hc1]
    exact List.drop_eq_nil_of_le (by rw [List.length_tail]; omega)

/-- C5: every entry present in the message log or the caption queue of any
state is evicted by some finite sequence of non-negative `update` calls
(no entry stays in the buffer forever). -/
theorem eventual_eviction (b : Message_Buffer) (e : Message_String)
    (he : e ∈ b.messages ∨ e ∈ b.captions) :
    ∃ dts : List ℚ, (∀ d ∈ dts, 0 ≤ d) ∧
      e ∉ (apply_updates b dts).messages ∧
      e ∉ (apply_updates b dts).captions := by
  obtain ⟨dts, h0, hm, hc⟩ := flush_all b
  refine ⟨dts, h0, ?_, ?_⟩
  · rw [hm]
    exact List.not_mem_nil e
  · rw [hc]
    exact List.not_mem_nil e

/-- Witness for C5: the `"hi"` entry of `sample_hi` is eventually gone. -/
theorem eventual_eviction_witness :
    ((⟨"hi", 1⟩ : Message_String) ∈ sample_hi.messages ∨
        (⟨"hi", 1⟩ : Message_String) ∈ sample_hi.captions) ∧
      ∃ dts : List ℚ, (∀ d ∈ dts, 0 ≤ d) ∧
        (⟨"hi", 1⟩ : Message_String) ∉
          (apply_updates sample_hi dts).messages ∧
        (⟨"hi", 1⟩ : Message_String) ∉
          (apply_updates sample_hi dts).captions := by
  have hmem : (⟨"hi", 1⟩ : Message_String) ∈ sample_hi.messages := by
    rw [sample_hi_eq]
    exact List.mem_singleton_self _
  exact ⟨Or.inl hmem, eventual_eviction sample_hi ⟨"hi", 1⟩ (Or.inl hmem)⟩

/-- C7: captions become active strictly in insertion order — whenever the
caption queue has front `c`, any single step either keeps `c` at the front
or (only once `c`'s clear time has passed) pops exactly `c`, so a later
caption is never active while an earlier one is still unexpired; and the
draw calls depend only on the front entry of the caption queue. -/
theorem captions_fifo :
    (∀ b b' : Message_Buffer, ∀ c : Message_String,
      ∀ cs : List Message_String, Step b b' → b.captions = c :: cs →
        (∃ tl, b'.captions = c :: tl) ∨
          (c.time_read ≤ b'.clock ∧ b'.captions = cs)) ∧
    (∀ b : Message_Buffer,
      (b.draw).2 = (({ b with captions := b.captions.take 1 }).draw).2) := by
  constructor
  · intro b b' c cs hstep hcap
    cases hstep with
    | msg s =>
      left
      exact ⟨cs, hcap⟩
    | caption s =>
      left
      refine ⟨cs ++ [⟨s, (b.time_read s).2⟩], ?_⟩
      show b.captions ++ _ = _
      rw [hcap, List.cons_append]
    | tick dt hdt =>
      by_cases hexp : c.time_read ≤ b.clock + dt
      · right
        refine ⟨hexp, ?_⟩
        show evict_caption (b.clock + dt) b.captions = cs
        rw [hcap, evict_caption, if_pos hexp]
      · left
        refine ⟨cs, ?_⟩
        show evict_caption (b.clock + dt) b.captions = c :: cs
        rw [hcap, evict_caption, if_neg hexp]
    | frame =>
      left
      exact ⟨cs, hcap⟩
  · intro b
    cases hcap : b.captions with
    | nil => simp [draw, hcap]
    | cons c rest => simp [draw, hcap]

/-- Witness for C7: a zero tick on two queued captions keeps the front. -/
theorem captions_fifo_witness :
    sample_xy.captions = ⟨"X", 1⟩ :: [⟨"Y", 2⟩] ∧
      ((∃ tl, (sample_xy.update 0).captions =
          (⟨"X", 1⟩ : Message_String) :: tl) ∨
        ((⟨"X", 1⟩ : Message_String).time_read ≤
            (sample_xy.update 0).clock ∧
          (sample_xy.update 0).captions = [⟨"Y", 2⟩])) := by
  have hcap : sample_xy.captions = ⟨"X", 1⟩ :: [⟨"Y", 2⟩] := by
    rw [sample_xy_eq]
  exact ⟨hcap, captions_fifo.1 sample_xy (sample_xy.update 0) ⟨"X", 1⟩
    [⟨"Y", 2⟩] (Step.tick sample_xy 0 (le_refl 0)) hcap⟩

/-- C9: the reading duration is `max(floor, length * letter_read_duration)`,
hence at least the configured floor (even for the empty string); and
concretely with `letter_read_duration = 1/20` and floor `1`,
`add_msg "hi"` at clock `0` schedules clear time `1`, the entry is still
present after `update (1/2)` and evicted after a further `update (3/5)`,
with the clock at `11/10`. -/
theorem duration_floor_and_scenario :
    (∀ (b : Message_Buffer) (s : String),
      b.min_read_duration ≤ b.duration_of s ∧
      b.duration_of s =
        max b.min_read_duration ((s.length : ℚ) * b.letter_read_duration)) ∧
    (sample_hi.messages = [⟨"hi", 1⟩] ∧
      (sample_hi.update (1/2)).messages = [⟨"hi", 1⟩] ∧
      ((sample_hi.update (1/2)).update (3/5)).clock = 11/10 ∧
      ((sample_hi.update (1/2)).update (3/5)).messages = []) := by
  refine ⟨fun b s => ⟨le_max_left _ _, rfl⟩, ?_, ?_, ?_, ?_⟩
  · rw [sample_hi_eq]
  · rw [sample_hi_eq]
    norm_num [update_def, evict_messages]
  · rw [sample_hi_eq]
    norm_num [update_def, evict_messages, evict_caption]
  · rw [sample_hi_eq]
    norm_num [update_def, evict_messages, evict_caption]

end Message_Buffer

end Magog
